import Mathlib

/-!
Verification of the croxz_bridge format pipeline (croxz_bridge.py).

This file gives a shallow embedding of the pure core of the bridge:

* the format reconciler `merge_video_audio_formats` together with its
  quality scoring `get_format_quality_score` (Python lines 351-531),
* the filename sanitizer `sanitize_filename` (lines 18-89),
* the URL classifier `extract_filename_from_url` / `get_extension_from_url` /
  `is_direct_download_url` / `get_file_category` / `analyze_url`
  (lines 113-204, 776-790),
* the record transformer `transform_single` / `transform_format` /
  `transform_playlist_info` (lines 534-746),
* a reference-passing (store) version of the reconciler used to verify that
  the reconciler never mutates its input dictionaries.

Modelling conventions:

* A Python dict of format fields becomes the structure `Fmt`; a missing key
  and a key bound to `None` are both modelled as `none` (the code always
  accesses these fields through `dict.get`, for which the two mostly agree;
  the few `dict.get(k, default)` sites where a stored `None` would differ
  from a missing key are unreachable for values the pipeline itself builds
  and are noted at their definition sites).
* Python truthiness on strings (`""` is falsy) and on integers (`0` is
  falsy) is made explicit through `truthyS` / `truthyI`.
* Numeric fields are modelled as `Int` (yt-dlp reports integral values for
  the fields the bridge reads; `safe_int` coercion becomes `Option.getD`).
* `unicodedata.normalize ('NFKD', _)` is an external Unicode-table function;
  the sanitizer is parametric in it (`nfkd`), and every sanitizer theorem
  holds for an arbitrary normalization, in particular for the real one.
* Python's `list.sort(key=k, reverse=True)` is the stable descending sort by
  `k`; stable sorting by an `Int` key is a unique function, realised here by
  the stable insertion sort `sortDescBy`.
-/

namespace Croxz

/-- Python truthiness of an optional string: missing/`None` and `""` are falsy. -/
def truthyS : Option String → Bool
  | some s => !(s == "")
  | none => false

/-- Python truthiness of an optional integer: missing/`None` and `0` are falsy. -/
def truthyI : Option Int → Bool
  | some n => !(n == 0)
  | none => false

/-- Model of `safe_int(value, default)` (lines 368-375) on the optional
integer fields the bridge reads: `None` (and a missing key) give the default. -/
def safeIntO (o : Option Int) (d : Int) : Int := o.getD d

/-- Python `a or b` on two optional integers (used as
`fmt.get("filesize") or fmt.get("filesize_approx")` and in the audio sort key):
the left value is taken when truthy, otherwise the right value as-is. -/
def orTruthyI (a b : Option Int) : Option Int :=
  match a with
  | some x => if x == 0 then b else some x
  | none => b

/-- One element of a `fragments` list (read in `transform_format`, line 719). -/
structure Frag where
  path : Option String := none
  url : Option String := none
  deriving Repr, DecidableEq

/-- One raw format dict as reported by the extractor, restricted to the keys
the bridge reads.  The three underscore-keys that the reconciler itself adds
(`_audio_url`, `_needs_merge`, `_video_only`) are modelled as fields that are
`none` / `false` on raw input. -/
structure Fmt where
  url : Option String := none
  protocol : Option String := none
  ext : Option String := none
  vcodec : Option String := none
  acodec : Option String := none
  height : Option Int := none
  width : Option Int := none
  fps : Option Int := none
  tbr : Option Int := none
  abr : Option Int := none
  quality : Option Int := none
  preference : Option Int := none
  filesize : Option Int := none
  filesize_approx : Option Int := none
  audio_ext : Option String := none
  language : Option String := none
  language_preference : Option Int := none
  http_headers : List (String × String) := []
  fragments : List Frag := []
  fragment_base_url : Option String := none
  manifest_url : Option String := none
  audioUrlM : Option String := none
  needsMergeM : Bool := false
  videoOnlyM : Bool := false
  deriving Repr, DecidableEq

/-- Truthiness test for a codec value: `vcodec and vcodec != "none"` where a
missing key defaults to `"none"` (so missing, `None`, `""` and `"none"` all
fail). -/
def truthyCodec : Option String → Bool
  | some s => !(s == "") && !(s == "none")
  | none => false

/-- Model of `has_video` (lines 351-354). -/
def has_video (f : Fmt) : Bool := truthyCodec f.vcodec

/-- Model of `has_audio` (lines 357-360). -/
def has_audio (f : Fmt) : Bool := truthyCodec f.acodec

/-- Model of `is_combined_format` (lines 363-365). -/
def is_combined_format (f : Fmt) : Bool := has_video f && has_audio f

/-- Model of `get_format_quality_score` (lines 396-426). -/
def get_format_quality_score (f : Fmt) : Int :=
  let s1 : Int := if is_combined_format f then 100000 else 0
  let s2 := s1 + safeIntO f.height 0 * 10
  let s3 := s2 + safeIntO f.tbr 0
  let extv := f.ext.getD ""
  let s4 := s3 + (if extv == "mp4" then 500 else if extv == "webm" then 100 else 0)
  let fpsv := safeIntO f.fps 0
  s4 + (if fpsv ≥ 60 then 200 else if fpsv ≥ 30 then 100 else 0)

/-- Stable insertion step for a descending sort by an `Int` key: the new
element `x` (earlier in the input) goes before the first element whose key is
not larger. -/
def insertDescBy {α : Type} (key : α → Int) (x : α) : List α → List α
  | [] => [x]
  | y :: ys => if key x < key y then y :: insertDescBy key x ys else x :: y :: ys

/-- Stable descending sort by an `Int` key; this is the function computed by
Python's `list.sort(key=..., reverse=True)` (stable sorts by a given key are
unique). -/
def sortDescBy {α : Type} (key : α → Int) : List α → List α
  | [] => []
  | x :: xs => insertDescBy key x (sortDescBy key xs)

/-- Entry filter of the reconciler (lines 440-445): drop formats without a
(truthy) URL, storyboard containers (`ext == "mhtml"`) and image sentinels
(`vcodec == "images"`). -/
def keepRaw (f : Fmt) : Bool :=
  truthyS f.url && !(f.ext == some "mhtml") && !(f.vcodec == some "images")

/-- Sort key for audio-only formats (line 463):
`x.get("abr") or x.get("tbr") or 0`. -/
def audioSortKey (f : Fmt) : Int := (orTruthyI f.abr f.tbr).getD 0

/-- Synthesised merged candidate (lines 467-480): copy of the video-only
format with the chosen audio's codec / bitrate / container overlaid, plus the
merge markers.  (`best.get("acodec", "aac")` / `best.get("ext", "m4a")` are
modelled with `Option.getD`; `best` is an audio-only format, so its `acodec`
is a real codec string and the defaults are never taken on reachable inputs.) -/
def mkMerged (best v : Fmt) : Fmt :=
  { v with
    acodec := some (best.acodec.getD "aac")
    abr := best.abr
    audio_ext := some (best.ext.getD "m4a")
    audioUrlM := best.url
    needsMergeM := true }

/-- Height key used for deduplication (line 508): `fmt.get("height") or 0`.
The dedup key string `"video_{height}"` is injective in the height value, so
the key is modelled by the height value itself. -/
def heightKey (f : Fmt) : Int := f.height.getD 0

/-- Dedup / filter loop of the reconciler (lines 503-531): walking the
score-sorted list, keep a video-capable format only if it carries audio
information (embedded codec or merged `audio_ext`) and its height was not
seen before; keep the first audio-only format as `best_audio`; result is the
kept video formats followed by the single best audio. -/
def dedupLoop : List Fmt → List Int → List Fmt → Option Fmt → List Fmt
  | [], _, vids, best =>
    vids ++ (match best with | some b => [b] | none => [])
  | f :: rest, seen, vids, best =>
    let h := heightKey f
    if has_video f then
      if has_audio f || truthyS f.audio_ext then
        if seen.contains h then
          dedupLoop rest seen vids best
        else
          dedupLoop rest (h :: seen) (vids ++ [f]) best
      else
        dedupLoop rest seen vids best
    else
      if has_audio f && best.isNone then
        dedupLoop rest seen vids (some f)
      else
        dedupLoop rest seen vids best

/-- Model of `merge_video_audio_formats` (lines 429-531). -/
def merge_video_audio_formats (formats : List Fmt) : List Fmt :=
  let kept := formats.filter keepRaw
  let combined := kept.filter is_combined_format
  let videoOnly := kept.filter (fun f => !is_combined_format f && has_video f)
  let audioOnly0 := kept.filter
    (fun f => !is_combined_format f && !has_video f && has_audio f)
  let pairing := !videoOnly.isEmpty && !audioOnly0.isEmpty
  let audioOnly := if pairing then sortDescBy audioSortKey audioOnly0 else audioOnly0
  let mergedList :=
    if pairing then
      match audioOnly with
      | [] => []
      | best :: _ => videoOnly.map (mkMerged best)
    else []
  let r1 := combined ++ mergedList
  let r2 :=
    if r1.isEmpty && !videoOnly.isEmpty then
      r1 ++ videoOnly.map (fun v => { v with videoOnlyM := true })
    else r1
  let r3 := r2 ++ audioOnly.map
    (fun f => { f with preference := some (safeIntO f.preference 0 - 50) })
  let sorted := sortDescBy get_format_quality_score r3
  dedupLoop sorted [] [] none

/-! ## Filename sanitizer (`sanitize_filename`, lines 18-89) -/

/-- Model of `ascii_text = normalized.encode('ascii', 'ignore').decode('ascii')`
(lines 32, 67): keep exactly the code points the ASCII codec can encode. -/
def asciiIgnore (l : List Char) : List Char := l.filter (fun c => c.toNat ≤ 127)

/-- Characters removed by the `invalid_chars` regex
`[\\/:*?"<>|\x00-\x1f]` (lines 72-73). -/
def isInvalidFileChar (c : Char) : Bool :=
  c == '\\' || c == '/' || c == ':' || c == '*' || c == '?' || c == '"' ||
  c == '<' || c == '>' || c == '|' || decide (c.toNat ≤ 31)

/-- Model of `re.sub(invalid_chars, '', ascii_text)` (line 73). -/
def removeInvalid (l : List Char) : List Char := l.filter (fun c => !isInvalidFileChar c)

/-- Character class `[\s_]` of line 76.  `\s` additionally matches non-ASCII
Unicode whitespace, but every input reaching line 76 has already been filtered
to ASCII, so the ASCII whitespace set is exact there. -/
def isSpaceOrUnderscore (c : Char) : Bool :=
  c == '_' || c == ' ' || c == '\t' || c == '\n' || c == '\r' ||
  c == '\x0b' || c == '\x0c'

/-- Worker for `re.sub(r'[\s_]+', '_', clean)`: `inRun` records whether the
previous character belonged to the class (so a run emits a single `'_'`). -/
def collapseAux : Bool → List Char → List Char
  | _, [] => []
  | inRun, c :: cs =>
    if isSpaceOrUnderscore c then
      if inRun then collapseAux true cs else '_' :: collapseAux true cs
    else c :: collapseAux false cs

/-- Model of `re.sub(r'[\s_]+', '_', clean)` (line 76): every maximal run of
whitespace/underscore characters becomes a single underscore. -/
def collapseRuns (l : List Char) : List Char := collapseAux false l

/-- The strip set of `clean.strip('_. ')` (line 79). -/
def isStripChar (c : Char) : Bool := c == '_' || c == '.' || c == ' '

/-- Remove the trailing characters satisfying `p` (Python `str.rstrip`). -/
def rdrop (p : Char → Bool) (l : List Char) : List Char := (l.reverse.dropWhile p).reverse

/-- Model of `clean.strip('_. ')` (line 79). -/
def stripBoth (l : List Char) : List Char := rdrop isStripChar (l.dropWhile isStripChar)

/-- Manual substitution table of lines 37-59, in source (insertion) order. -/
def replacementTable : List (Char × String) :=
  [('ğ', "g"), ('Ğ', "G"),
   ('ı', "i"), ('İ', "I"),
   ('ş', "s"), ('Ş', "S"),
   ('ü', "u"), ('Ü', "U"),
   ('ö', "o"), ('Ö', "O"),
   ('ç', "c"), ('Ç', "C"),
   ('ä', "ae"), ('Ä', "Ae"),
   ('ß', "ss"),
   ('é', "e"), ('è', "e"), ('ê', "e"), ('ë', "e"),
   ('à', "a"), ('á', "a"), ('â', "a"),
   ('ñ', "n"), ('Ñ', "N"),
   ('’', "'"), ('‘', "'"),
   ('“', "\""), ('”', "\""),
   ('–', "-"), ('—', "-"),
   ('…', "..."),
   ('©', "(c)"), ('®', "(r)"),
   ('™', "(tm)")]

/-- Model of the sequential `temp.replace(old, new)` loop (lines 61-63).
Every pattern is a single non-ASCII character and every replacement text is
pure ASCII, so no replacement can create or destroy a later match and the
sequential substitutions equal one simultaneous character-by-character pass. -/
def applyReplacements (s : String) : String :=
  String.mk (s.data.flatMap (fun c =>
    match replacementTable.lookup c with
    | some r => r.data
    | none => [c]))

/-- The character-level tail of the sanitizer (lines 72-83): strip invalid
characters, collapse whitespace/underscore runs, trim the ends, and truncate
to `max_length` (trimming a trailing underscore left by truncation). -/
def cleanPipeline (ascii_text : List Char) (max_length : Nat) : List Char :=
  let c1 := removeInvalid ascii_text
  let c2 := collapseRuns c1
  let c3 := stripBoth c2
  if max_length < c3.length then rdrop (fun c => c == '_') (c3.take max_length) else c3

/-- The transliteration stage of the sanitizer (lines 31-67): NFKD-normalize
and strip to ASCII; when that destroys more than 70% of the characters, apply
the manual substitution table first and re-attempt.  The heuristic
`len(ascii_text) < len(title) * 0.3` (line 35) is modelled by the exact
rational comparison `len(ascii_text) * 10 < len(title) * 3`; the two agree
for every title shorter than about 10^14 characters (the double rounding
error of `len(title) * 0.3` is far below the distance from the exact value
to the nearest integer). -/
def asciiText (nfkd : String → String) (title : String) : List Char :=
  let ascii0 := asciiIgnore (nfkd title).data
  if ascii0.length * 10 < title.data.length * 3 then
    asciiIgnore (nfkd (applyReplacements title)).data
  else ascii0

/-- Model of `sanitize_filename` (lines 18-89), parametric in the NFKD
normalization `nfkd`. -/
def sanitize_filename (nfkd : String → String) (title : String) (max_length : Nat) : String :=
  if title == "" then "download"
  else
    let c4 := cleanPipeline (asciiText nfkd title) max_length
    if c4 == [] then "download" else String.mk c4

/-! ## URL classifier (lines 113-204, 776-790) -/

/-- `ARCHIVE_EXTENSIONS` (lines 114-116). -/
def ARCHIVE_EXTENSIONS : List String :=
  ["zip", "rar", "7z", "tar", "gz", "bz2", "xz", "iso", "cab", "arj", "lzh", "ace"]

/-- `EXECUTABLE_EXTENSIONS` (lines 118-120). -/
def EXECUTABLE_EXTENSIONS : List String :=
  ["exe", "msi", "dmg", "pkg", "deb", "rpm", "appimage", "apk", "ipa", "run",
   "bin", "sh", "bat", "cmd", "ps1"]

/-- `DOCUMENT_EXTENSIONS` (lines 122-124). -/
def DOCUMENT_EXTENSIONS : List String :=
  ["pdf", "doc", "docx", "xls", "xlsx", "ppt", "pptx", "odt", "ods", "odp",
   "rtf", "txt", "csv", "epub", "mobi"]

/-- `IMAGE_EXTENSIONS` (lines 126-128). -/
def IMAGE_EXTENSIONS : List String :=
  ["jpg", "jpeg", "png", "gif", "webp", "bmp", "svg", "ico", "tiff", "tif",
   "psd", "ai", "raw", "cr2", "nef"]

/-- `AUDIO_EXTENSIONS` (lines 130-132). -/
def AUDIO_EXTENSIONS : List String :=
  ["mp3", "m4a", "wav", "flac", "ogg", "aac", "wma", "opus", "aiff", "ape", "alac"]

/-- `VIDEO_EXTENSIONS` (lines 134-136). -/
def VIDEO_EXTENSIONS : List String :=
  ["mp4", "mkv", "webm", "avi", "mov", "wmv", "flv", "m4v", "mpeg", "mpg",
   "3gp", "ts", "m2ts", "vob"]

/-- `FONT_EXTENSIONS` (lines 138-140). -/
def FONT_EXTENSIONS : List String :=
  ["ttf", "otf", "woff", "woff2", "eot", "fon"]

/-- `CODE_EXTENSIONS` (lines 142-144). -/
def CODE_EXTENSIONS : List String :=
  ["js", "py", "java", "cpp", "c", "h", "cs", "php", "rb", "go", "rs",
   "swift", "kt", "scala", "sql"]

/-- `ALL_DIRECT_EXTENSIONS` (lines 146-150), the union of the eight category
sets (they are pairwise disjoint, so the list union is an exact model of the
set union). -/
def ALL_DIRECT_EXTENSIONS : List String :=
  ARCHIVE_EXTENSIONS ++ EXECUTABLE_EXTENSIONS ++ DOCUMENT_EXTENSIONS ++
  IMAGE_EXTENSIONS ++ AUDIO_EXTENSIONS ++ VIDEO_EXTENSIONS ++
  FONT_EXTENSIONS ++ CODE_EXTENSIONS

/-- Python `str.lower()` restricted to ASCII.  CPython lowercases the whole
Unicode range; a non-ASCII letter can therefore survive differently here, but
every extension in the category sets is ASCII, so the difference cannot change
any membership test or direct-download classification. -/
def pyLowerChar (c : Char) : Char :=
  if 'A' ≤ c ∧ c ≤ 'Z' then Char.ofNat (c.toNat + 32) else c

/-- Lowercase a character list (Python `str.lower()`, ASCII range). -/
def pyLower (l : List Char) : List Char := l.map pyLowerChar

/-- Model of `get_file_category` before lowercasing (the `if/elif` chain of
lines 156-172). -/
def categoryOfLower (e : String) : String :=
  if ARCHIVE_EXTENSIONS.contains e then "archive"
  else if EXECUTABLE_EXTENSIONS.contains e then "executable"
  else if DOCUMENT_EXTENSIONS.contains e then "document"
  else if IMAGE_EXTENSIONS.contains e then "image"
  else if AUDIO_EXTENSIONS.contains e then "audio"
  else if VIDEO_EXTENSIONS.contains e then "video"
  else if FONT_EXTENSIONS.contains e then "font"
  else if CODE_EXTENSIONS.contains e then "code"
  else "file"

/-- Model of `get_file_category` (lines 153-172). -/
def get_file_category (e : String) : String := categoryOfLower (String.mk (pyLower e.data))

/-- Split a character list at the first occurrence of `sep`: the part before
it, and (when the separator occurs) the part after it. -/
def splitFirst (sep : Char) : List Char → List Char × Option (List Char)
  | [] => ([], none)
  | c :: cs =>
    if c == sep then ([], some cs)
    else
      let r := splitFirst sep cs
      (c :: r.1, r.2)

/-- Scheme characters accepted by `urllib.parse` (ASCII letters, digits,
`+`, `-`, `.`). -/
def isSchemeChar (c : Char) : Bool := c.isAlpha || c.isDigit || c == '+' || c == '-' || c == '.'

/-- Path component of `urllib.parse.urlparse(url)`, modelling CPython's
`urlsplit`: strip the WHATWG "C0 control or space" characters from both ends
and remove tab/CR/LF everywhere; split off a `scheme:` when the text before
the first `:` is a non-empty run of scheme characters starting with a letter;
skip a `//netloc` up to the next `/`, `?` or `#`; drop the fragment (first
`#`) and then the query (first `?`). -/
def urlPathChars (url : String) : List Char :=
  let l0 := url.data.filter (fun c => !(c == '\t' || c == '\n' || c == '\r'))
  let l1 := rdrop (fun c => c.toNat ≤ 32) (l0.dropWhile (fun c => c.toNat ≤ 32))
  let sp := splitFirst ':' l1
  let rest :=
    match sp.2 with
    | some r =>
      match sp.1 with
      | [] => l1
      | c0 :: cs0 => if c0.isAlpha && (c0 :: cs0).all isSchemeChar then r else l1
    | none => l1
  let rest2 :=
    match rest with
    | '/' :: '/' :: r => r.dropWhile (fun c => !(c == '/' || c == '?' || c == '#'))
    | _ => rest
  let rest3 := (splitFirst '#' rest2).1
  (splitFirst '?' rest3).1

/-- Value of an ASCII hex digit. -/
def hexDigitVal (c : Char) : Option Nat :=
  if '0' ≤ c ∧ c ≤ '9' then some (c.toNat - 48)
  else if 'a' ≤ c ∧ c ≤ 'f' then some (c.toNat - 87)
  else if 'A' ≤ c ∧ c ≤ 'F' then some (c.toNat - 55)
  else none

/-- The Unicode replacement character U+FFFD. -/
def replChar : Char := Char.ofNat 0xFFFD

/-- UTF-8 decoding with `errors='replace'`: each maximal invalid subpart
becomes one U+FFFD (an invalid lead byte is skipped; an invalid continuation
byte restarts decoding at that byte; a truncated final sequence becomes a
single U+FFFD). -/
def utf8DecodeRepl : List Nat → List Char
  | [] => []
  | b :: bs =>
    if b < 128 then Char.ofNat b :: utf8DecodeRepl bs
    else if 194 ≤ b ∧ b ≤ 223 then
      match bs with
      | [] => [replChar]
      | b2 :: rest =>
        if 128 ≤ b2 ∧ b2 ≤ 191 then
          Char.ofNat ((b - 192) * 64 + (b2 - 128)) :: utf8DecodeRepl rest
        else replChar :: utf8DecodeRepl (b2 :: rest)
    else if 224 ≤ b ∧ b ≤ 239 then
      match bs with
      | [] => [replChar]
      | b2 :: rest =>
        let lo2 : Nat := if b == 224 then 160 else 128
        let hi2 : Nat := if b == 237 then 159 else 191
        if lo2 ≤ b2 ∧ b2 ≤ hi2 then
          match rest with
          | [] => [replChar]
          | b3 :: rest2 =>
            if 128 ≤ b3 ∧ b3 ≤ 191 then
              Char.ofNat ((b - 224) * 4096 + (b2 - 128) * 64 + (b3 - 128)) ::
                utf8DecodeRepl rest2
            else replChar :: utf8DecodeRepl (b3 :: rest2)
        else replChar :: utf8DecodeRepl (b2 :: rest)
    else if 240 ≤ b ∧ b ≤ 244 then
      match bs with
      | [] => [replChar]
      | b2 :: rest =>
        let lo2 : Nat := if b == 240 then 144 else 128
        let hi2 : Nat := if b == 244 then 143 else 191
        if lo2 ≤ b2 ∧ b2 ≤ hi2 then
          match rest with
          | [] => [replChar]
          | b3 :: rest2 =>
            if 128 ≤ b3 ∧ b3 ≤ 191 then
              match rest2 with
              | [] => [replChar]
              | b4 :: rest3 =>
                if 128 ≤ b4 ∧ b4 ≤ 191 then
                  Char.ofNat ((b - 240) * 262144 + (b2 - 128) * 4096 +
                    (b3 - 128) * 64 + (b4 - 128)) :: utf8DecodeRepl rest3
                else replChar :: utf8DecodeRepl (b4 :: rest3)
            else replChar :: utf8DecodeRepl (b3 :: rest2)
        else replChar :: utf8DecodeRepl (b2 :: rest)
    else replChar :: utf8DecodeRepl bs

/-- Scanner for `urllib.parse.unquote(_, encoding='utf-8', errors='replace')`:
maximal runs of `%XX` escapes accumulate into `acc` (in reverse) and are
decoded as one UTF-8 byte sequence; a literal character or a malformed escape
flushes the pending run and is kept as-is. -/
def unquoteAux : List Char → List Nat → List Char
  | [], acc => utf8DecodeRepl acc.reverse
  | '%' :: c1 :: c2 :: rest, acc =>
    match hexDigitVal c1, hexDigitVal c2 with
    | some h, some lo => unquoteAux rest ((h * 16 + lo) :: acc)
    | _, _ => utf8DecodeRepl acc.reverse ++ '%' :: unquoteAux (c1 :: c2 :: rest) []
  | '%' :: rest, acc => utf8DecodeRepl acc.reverse ++ '%' :: unquoteAux rest []
  | c :: rest, acc => utf8DecodeRepl acc.reverse ++ c :: unquoteAux rest []

/-- Model of `urllib.parse.unquote` on a character list. -/
def unquoteChars (l : List Char) : List Char := unquoteAux l []

/-- The part after the last occurrence of `sep` (the whole list when `sep`
does not occur). -/
def afterLast (sep : Char) (l : List Char) : List Char :=
  (l.reverse.takeWhile (fun c => !(c == sep))).reverse

/-- Model of `extract_filename_from_url` (lines 175-187):
`os.path.basename(unquote(urlparse(url).path))`, then cut at the first `?`,
defaulting to `"download"` when empty.  (`os.path.basename` is modelled as
POSIX `basename`; on Windows `ntpath.basename` would additionally split at
backslashes and drive letters, which no claim exercises.) -/
def extract_filename_from_url (url : String) : String :=
  let path := unquoteChars (urlPathChars url)
  let filename := afterLast '/' path
  let filename := (splitFirst '?' filename).1
  if filename == [] then "download" else String.mk filename

/-- ASCII alphanumeric test (Python `str.isalnum` additionally accepts
non-ASCII alphanumerics; such extensions are never in the category sets, so
the difference cannot change the direct-download classification). -/
def isAlnumAscii (c : Char) : Bool := c.isAlpha || c.isDigit

/-- Model of `get_extension_from_url` (lines 190-198): the lowercased part of
the filename after the last dot, provided it is nonempty alphanumeric
(`"".isalnum()` is false) and at most 10 characters long. -/
def get_extension_from_url (url : String) : Option String :=
  let filename := (extract_filename_from_url url).data
  if filename.contains '.' then
    let ext := pyLower (afterLast '.' filename)
    if ext.length ≤ 10 && !ext.isEmpty && ext.all isAlnumAscii then
      some (String.mk ext)
    else none
  else none

/-- Model of `is_direct_download_url` (lines 201-204). -/
def is_direct_download_url (url : String) : Bool :=
  match get_extension_from_url url with
  | some e => ALL_DIRECT_EXTENSIONS.contains e
  | none => false

/-- Result shape of `analyze_url` (lines 776-790). -/
structure AnalyzeResult where
  url : String
  is_direct : Bool
  has_ytdlp : Bool
  extension : Option String
  filename : String
  category : Option String := none
  deriving Repr, DecidableEq

/-- Model of `analyze_url` (lines 776-790).  `find_ytdlp()` probes the
execution environment and is passed in as `hasYtdlp`.  When the URL is
direct, `get_file_category(result["extension"])` receives the extension
string, which is then not `None` (modelled with `getD ""`). -/
def analyze_url (hasYtdlp : Bool) (url : String) : AnalyzeResult :=
  let base : AnalyzeResult :=
    { url := url
      is_direct := false
      has_ytdlp := hasYtdlp
      extension := get_extension_from_url url
      filename := extract_filename_from_url url }
  if is_direct_download_url url then
    { base with
      is_direct := true
      category := some (get_file_category ((get_extension_from_url url).getD "")) }
  else base

/-! ## Record transformer (lines 378-393, 534-746) -/

/-- Round `a / b` (with `b > 0`) to the nearest integer, ties to even — the
rounding CPython's float formatting applies.  Used with numerators scaled by
10 or 100 to model `f"{x:.1f}"` / `f"{x:.2f}"`. -/
def roundHalfEven (a b : Int) : Int :=
  let q := Int.fdiv a b
  let r := a - q * b
  if 2 * r < b then q
  else if b < 2 * r then q + 1
  else if q % 2 == 0 then q else q + 1

/-- Render a value scaled by `10^digits` with a decimal point, Python style
(`473` with one digit → `"47.3"`). -/
def scaledDecimalString (scaled : Int) (digits : Nat) : String :=
  let sign := if scaled < 0 then "-" else ""
  let m := scaled.natAbs
  let p := 10 ^ digits
  sign ++ toString (m / p) ++ "." ++
    (let frac := toString (m % p)
     String.mk (List.replicate (digits - frac.length) '0') ++ frac)

/-- Model of `format_filesize` (lines 378-393) on an integral byte count.
The divisions by powers of 1024 are exact in double precision for every
`|size| < 2^53` and CPython's `.1f`/`.2f` formatting rounds correctly
(half-to-even), so the integer computation agrees with the float one there. -/
def format_filesize (n : Int) : String :=
  if n < 1024 then toString n ++ "B"
  else if n < 1024 * 1024 then
    scaledDecimalString (roundHalfEven (n * 10) 1024) 1 ++ "KB"
  else if n < 1024 * 1024 * 1024 then
    scaledDecimalString (roundHalfEven (n * 10) (1024 * 1024)) 1 ++ "MB"
  else
    scaledDecimalString (roundHalfEven (n * 100) (1024 * 1024 * 1024)) 2 ++ "GB"

/-- Does the character list `needle` occur contiguously in `hay`
(Python `needle in hay` on strings)? -/
def containsSeq (needle hay : List Char) : Bool :=
  hay.tails.any (fun t => needle.isPrefixOf t)

/-- Protocol normalization of `transform_format` (lines 623-630). -/
def resolveProtocol (f : Fmt) (u : String) : String :=
  let p := f.protocol.getD "https"
  if p == "http" || p == "https" || p == "m3u8_native" || p == "http_dash_segments" then p
  else if containsSeq "m3u8".data u.data || f.ext == some "m3u8" then "m3u8_native"
  else if "https".data.isPrefixOf u.data then "https"
  else "http"

/-- Output dict of `transform_format`: a field is `none` / `[]` / `false`
exactly when the corresponding key is absent.  (`videoOnlyT` models the
`_video_only` key, which `transform_format` never writes but the downstream
filter of `transform_single` reads — it is always `false` here.) -/
structure TFormat where
  url : String
  protocol : String
  ext : String
  filesize : Option Int
  quality : Int
  preference : Int
  tbr : Option Int
  video_ext : Option String := none
  vcodec : Option String := none
  height : Option Int := none
  width : Option Int := none
  fps : Option Int := none
  audio_ext : Option String := none
  acodec : Option String := none
  abr : Option Int := none
  formatDesc : Option String := none
  filenameT : Option String := none
  language : Option String := none
  languagePreference : Option Int := none
  httpHeaders : List (String × String) := []
  container : Option String := none
  fragment_base_url : Option String := none
  fragmentPaths : Option (List String) := none
  manifestUrl : Option String := none
  videoOnlyT : Bool := false
  deriving Repr, DecidableEq

/-- Join a list of strings with a separator (Python `sep.join(parts)`). -/
def joinSep (sep : String) : List String → String
  | [] => ""
  | [s] => s
  | s :: rest => s ++ sep ++ joinSep sep rest

/-- Model of `transform_format` (lines 617-724). -/
def transform_format (fmt : Fmt) (title : Option String) (video_id : Option String) :
    Option TFormat :=
  match fmt.url with
  | none => none
  | some u =>
    if u == "" then none
    else
      let proto := resolveProtocol fmt u
      let extv := fmt.ext.getD "mp4"
      let has_v := truthyCodec fmt.vcodec
      let has_a := truthyCodec fmt.acodec
      let r0 : TFormat :=
        { url := u
          protocol := proto
          ext := extv
          filesize := orTruthyI fmt.filesize fmt.filesize_approx
          quality := safeIntO fmt.quality 0
          preference := safeIntO fmt.preference 0
          tbr := fmt.tbr }
      let r1 :=
        if has_v then
          { r0 with
            video_ext := some extv
            vcodec := fmt.vcodec
            height := fmt.height
            width := fmt.width
            fps := fmt.fps }
        else r0
      let r2 :=
        if has_a then
          { r1 with
            audio_ext := some (if has_v then extv else fmt.audio_ext.getD extv)
            acodec := fmt.acodec
            abr := fmt.abr }
        else r1
      let r3 :=
        if truthyS fmt.audio_ext && !has_a then
          { r2 with
            audio_ext := fmt.audio_ext
            acodec := some (fmt.acodec.getD "aac")
            abr := fmt.abr }
        else r2
      let parts1 :=
        if has_v then
          (if truthyI fmt.height then [toString (fmt.height.getD 0) ++ "p"] else []) ++
          (if safeIntO fmt.fps 0 ≥ 60 then [toString (safeIntO fmt.fps 0) ++ "fps"] else [])
        else []
      let parts2 := parts1 ++
        (if (has_a || truthyS fmt.audio_ext) && 0 < safeIntO fmt.abr 0 then
          [toString (safeIntO fmt.abr 0) ++ "kbps"] else [])
      let fsOpt := orTruthyI fmt.filesize fmt.filesize_approx
      let parts3 := parts2 ++
        (if truthyI fsOpt then ["[" ++ format_filesize (fsOpt.getD 0) ++ "]"] else [])
      let r4 :=
        if !parts3.isEmpty then
          { r3 with formatDesc := some (joinSep " " parts3 ++ " (" ++ extv ++ ")") }
        else r3
      let r5 :=
        match title with
        | some t =>
          if t == "" then r4
          else
            let ps := [t] ++
              (if truthyI fmt.height then [toString (fmt.height.getD 0) ++ "p"] else []) ++
              (match video_id with
               | some vid =>
                 if !(vid == "") && vid.data.length ≤ 12 then ["[" ++ vid ++ "]"] else []
               | none => [])
            { r4 with filenameT := some (joinSep "_" ps) }
        | none => r4
      let r6 :=
        if truthyS fmt.language then
          { r5 with
            language := fmt.language
            languagePreference := some (fmt.language_preference.getD 0) }
        else r5
      let r7 :=
        if !fmt.http_headers.isEmpty then { r6 with httpHeaders := fmt.http_headers } else r6
      let r8 :=
        if proto == "http_dash_segments" then
          { r7 with container := some (extv ++ "_dash") }
        else r7
      let r9 :=
        if !fmt.fragments.isEmpty then
          { r8 with
            fragment_base_url := some (fmt.fragment_base_url.getD "")
            fragmentPaths := some (fmt.fragments.map
              (fun fr => fr.path.getD (fr.url.getD ""))) }
        else r8
      let r10 :=
        if proto == "m3u8_native" then
          { r9 with manifestUrl := some (fmt.manifest_url.getD u) }
        else r9
      some r10

/-- One subtitle entry of the raw record. -/
structure SubIn where
  name : Option String := none
  url : Option String := none
  ext : Option String := none
  deriving Repr, DecidableEq

/-- One normalized subtitle entry (lines 598-602). -/
structure SubOut where
  name : String
  url : String
  ext : String
  deriving Repr, DecidableEq

/-- One thumbnail entry of the raw record. -/
structure ThumbIn where
  url : Option String := none
  width : Option Int := none
  height : Option Int := none
  preference : Option Int := none
  deriving Repr, DecidableEq

/-- One normalized thumbnail entry (lines 605-612). -/
structure ThumbOut where
  url : String
  width : Option Int
  height : Option Int
  preference : Int
  deriving Repr, DecidableEq

/-- One element of a playlist container's `entries` (read in
`transform_playlist_info`, lines 731-738). -/
structure RawEntry where
  url : Option String := none
  webpage_url : Option String := none
  title : Option String := none
  duration : Option Int := none
  deriving Repr, DecidableEq

/-- One raw extraction record, restricted to the keys `transform_single` and
`transform_playlist_info` read.  `selfFmt` collects the format-level keys of
the same dict (the record doubles as its own single format when it has a
top-level `url` but no `formats`, line 560-561; `data.get("url")` is
`selfFmt.url`).  A playlist's `entries` may contain `None` entries, modelled
as `none`. -/
structure RawRecord where
  rtype : Option String := none
  id : Option String := none
  title : Option String := none
  webpage_url : Option String := none
  duration : Option Int := none
  upload_date : Option String := none
  formats : Option (List Fmt) := none
  selfFmt : Fmt := {}
  subtitles : List (String × List SubIn) := []
  thumbnails : List ThumbIn := []
  entries : List (Option RawEntry) := []
  deriving Repr, DecidableEq

/-- Normalized output for a single playable item (the `result` dict of
`transform_single`).  The three underscore fields model the keys `_error`,
`_ytdlp_version` and `_hint`; `ytdlpVerKey` is `some v` when the key is
present (the stored value `v` may itself be `None` when the version probe
failed). -/
structure NormalizedRecord where
  id : String
  title : String
  original_title : String
  webpage_url : String
  duration : Option Int
  formats : List TFormat
  subtitles : List (String × List SubOut)
  thumbnails : List ThumbOut
  upload_date : Option String := none
  errNote : Option String := none
  ytdlpVerKey : Option (Option String) := none
  hint : Option String := none
  deriving Repr, DecidableEq

/-- One lightweight playlist entry reference (lines 733-738). -/
structure PEntry where
  url : String
  title : String
  duration : Option Int
  deriving Repr, DecidableEq

/-- Playlist output shape (lines 740-746). -/
structure PlaylistRecord where
  id : String
  title : String
  webpage_url : String
  entries : List PEntry
  deriving Repr, DecidableEq

/-- The two mutually exclusive shapes `transform_single` can return. -/
inductive TransformResult where
  | single (r : NormalizedRecord)
  | playlistR (p : PlaylistRecord)
  deriving Repr, DecidableEq

/-- Model of `transform_playlist_info` (lines 727-746). -/
def transform_playlist_info (d : RawRecord) : PlaylistRecord :=
  { id := d.id.getD ""
    title := d.title.getD "Playlist"
    webpage_url := d.webpage_url.getD ""
    entries := d.entries.filterMap (fun e? =>
      e?.map (fun e =>
        { url := e.url.getD (e.webpage_url.getD "")
          title := e.title.getD "Unknown"
          duration := e.duration })) }

/-- Upload-date normalization of `transform_single` (lines 555-557): the
field is produced exactly when the raw value is a truthy string of length 8,
and is then the `YYYY-MM-DD` slicing of it — the characters themselves are
not checked. -/
def pyUploadDate : Option String → Option String
  | some s =>
    if !(s == "") && s.data.length == 8 then
      some (String.mk (s.data.take 4) ++ "-" ++ String.mk ((s.data.drop 4).take 2) ++
        "-" ++ String.mk ((s.data.drop 6).take 2))
    else none
  | none => none

/-- The format list fed to the reconciler (lines 559-561): the record's
`formats`, or the record itself as a single format when it has none but a
truthy top-level `url`. -/
def recFormats (d : RawRecord) : List Fmt :=
  let fs0 := d.formats.getD []
  if fs0.isEmpty && truthyS d.selfFmt.url then [d.selfFmt] else fs0

/-- The per-record `transform_format` results (lines 563-569): reconcile, then
transform each surviving format with the sanitized title and the video id. -/
def transformedFormats (nfkd : String → String) (d : RawRecord) : List TFormat :=
  (merge_video_audio_formats (recFormats d)).filterMap
    (fun f => transform_format f
      (some (sanitize_filename nfkd (d.title.getD "Unknown Title") 200))
      (some (d.id.getD "")))

/-- The keep-condition of `transform_single`'s format filter (lines 571-580). -/
def keepTransformed (t : TFormat) : Bool :=
  let has_v := truthyCodec t.vcodec
  let has_a := truthyCodec t.acodec
  (has_v && has_a) || (!has_v && has_a) || truthyS t.audio_ext || t.videoOnlyT

/-- The final format list of `transform_single` (lines 571-584): the filtered
list, unless filtering removed everything, in which case all formats are kept. -/
def finalFormats (nfkd : String → String) (d : RawRecord) : List TFormat :=
  let tfs := transformedFormats nfkd d
  let filtered := tfs.filter keepTransformed
  if filtered.isEmpty then tfs else filtered

/-- Normalized subtitles (lines 593-602): keep each language whose entry list
is nonempty. -/
def subsOut (d : RawRecord) : List (String × List SubOut) :=
  d.subtitles.filterMap (fun ls =>
    if ls.2.isEmpty then none
    else some (ls.1, ls.2.map (fun s =>
      { name := s.name.getD ls.1, url := s.url.getD "", ext := s.ext.getD "vtt" })))

/-- Normalized thumbnails (lines 604-612): keep entries with a truthy `url`. -/
def thumbsOut (d : RawRecord) : List ThumbOut :=
  d.thumbnails.filterMap (fun t =>
    match t.url with
    | some u =>
      if u == "" then none
      else some { url := u, width := t.width, height := t.height,
                  preference := safeIntO t.preference 0 }
    | none => none)

/-- Model of `transform_single` (lines 534-614).  `check_ytdlp_version()`
probes the environment and is passed in as `ytver` (it is only consulted on
the no-formats path, exactly as in the source); the NFKD normalization is the
`nfkd` parameter. -/
def transform_single (nfkd : String → String) (ytver : Option String) (d : RawRecord) :
    TransformResult :=
  if d.rtype == some "playlist" then .playlistR (transform_playlist_info d)
  else
    .single
      { id := d.id.getD ""
        title := sanitize_filename nfkd (d.title.getD "Unknown Title") 200
        original_title := d.title.getD "Unknown Title"
        webpage_url := d.webpage_url.getD (d.selfFmt.url.getD "")
        duration := d.duration
        formats := finalFormats nfkd d
        subtitles := subsOut d
        thumbnails := thumbsOut d
        upload_date := pyUploadDate d.upload_date
        errNote :=
          if (finalFormats nfkd d).isEmpty then some "No downloadable formats found" else none
        ytdlpVerKey := if (finalFormats nfkd d).isEmpty then some ytver else none
        hint :=
          if (finalFormats nfkd d).isEmpty then some "Try updating yt-dlp: yt-dlp -U" else none }

/-! ## Reference-passing reconciler

To verify that `merge_video_audio_formats` never mutates its input dicts
(it only reads them, copies them with `dict.copy()` and mutates the copies),
the reconciler is re-embedded over an explicit store: every dict is a cell
addressed by a `Nat`, the input list is a list of addresses, `dict.copy()`
is an allocation, and every Python item assignment `d[k] = v` is a store
write at `d`'s address.  The theorem for the frame claim states that every
cell that existed before the call holds the same value afterwards. -/

/-- A heap of format dicts; the address of a cell is its index. -/
structure Store where
  mem : List Fmt
  deriving Repr, DecidableEq

/-- Read the dict at address `i`. -/
def readS (st : Store) (i : Nat) : Fmt := st.mem.getD i {}

/-- Allocate a new dict (Python `dict.copy()` allocates), returning its
address. -/
def allocS (st : Store) (f : Fmt) : Store × Nat :=
  ({ mem := st.mem ++ [f] }, st.mem.length)

/-- Item assignment on the dict at address `i`. -/
def writeS (st : Store) (i : Nat) (f : Fmt) : Store := { mem := st.mem.set i f }

/-- Reference version of the merged-candidate synthesis (lines 467-480):
`merged = vfmt.copy()` allocates, then the five item assignments write the
fresh cell, reading `best_audio` from the store each time. -/
def mkMergedRef (st : Store) (bestId vId : Nat) : Store × Nat :=
  let a := allocS st (readS st vId)
  let st1 := a.1
  let j := a.2
  let st2 := writeS st1 j
    { readS st1 j with acodec := some ((readS st1 bestId).acodec.getD "aac") }
  let st3 := writeS st2 j { readS st2 j with abr := (readS st2 bestId).abr }
  let st4 := writeS st3 j
    { readS st3 j with audio_ext := some ((readS st3 bestId).ext.getD "m4a") }
  let st5 := writeS st4 j { readS st4 j with audioUrlM := (readS st4 bestId).url }
  let st6 := writeS st5 j { readS st5 j with needsMergeM := true }
  (st6, j)

/-- Reference version of the merged-candidate loop (lines 467-480), one
`mkMergedRef` per video-only address, in order. -/
def buildMergedRef (bestId : Nat) : List Nat → Store → Store × List Nat
  | [], st => (st, [])
  | v :: vs, st =>
    let p := mkMergedRef st bestId v
    let q := buildMergedRef bestId vs p.1
    (q.1, p.2 :: q.2)

/-- Reference version of the video-only fallback (lines 483-487):
`vfmt.copy()` then the `_video_only` assignment. -/
def fallbackRef : List Nat → Store → Store × List Nat
  | [], st => (st, [])
  | v :: vs, st =>
    let a := allocS st (readS st v)
    let st2 := writeS a.1 a.2 { readS a.1 a.2 with videoOnlyM := true }
    let q := fallbackRef vs st2
    (q.1, a.2 :: q.2)

/-- Reference version of the audio-only penalty loop (lines 490-493):
`fmt.copy()` then the `preference` assignment (which reads the copy). -/
def penalizeRef : List Nat → Store → Store × List Nat
  | [], st => (st, [])
  | f :: fs, st =>
    let a := allocS st (readS st f)
    let st2 := writeS a.1 a.2
      { readS a.1 a.2 with
        preference := some (safeIntO (readS a.1 a.2).preference 0 - 50) }
    let q := penalizeRef fs st2
    (q.1, a.2 :: q.2)

/-- Reference version of the dedup loop (lines 503-531); it only reads. -/
def dedupLoopRef (st : Store) : List Nat → List Int → List Nat → Option Nat → List Nat
  | [], _, vids, best => vids ++ (match best with | some b => [b] | none => [])
  | i :: rest, seen, vids, best =>
    let f := readS st i
    let h := heightKey f
    if has_video f then
      if has_audio f || truthyS f.audio_ext then
        if seen.contains h then dedupLoopRef st rest seen vids best
        else dedupLoopRef st rest (h :: seen) (vids ++ [i]) best
      else dedupLoopRef st rest seen vids best
    else
      if has_audio f && best.isNone then dedupLoopRef st rest seen vids (some i)
      else dedupLoopRef st rest seen vids best

/-- Reference version of `merge_video_audio_formats` (lines 429-531): the
same control flow as `merge_video_audio_formats`, with dict access replaced
by store reads and the three copy-then-assign sites replaced by
alloc-then-write.  Returns the final store and the result addresses. -/
def merge_video_audio_formats_ref (st0 : Store) (ids : List Nat) : Store × List Nat :=
  let keptI := ids.filter (fun i => keepRaw (readS st0 i))
  let combinedI := keptI.filter (fun i => is_combined_format (readS st0 i))
  let videoOnlyI := keptI.filter
    (fun i => !is_combined_format (readS st0 i) && has_video (readS st0 i))
  let audioOnlyI0 := keptI.filter
    (fun i => !is_combined_format (readS st0 i) && !has_video (readS st0 i) &&
      has_audio (readS st0 i))
  let pairing := !videoOnlyI.isEmpty && !audioOnlyI0.isEmpty
  let audioOnlyI :=
    if pairing then sortDescBy (fun i => audioSortKey (readS st0 i)) audioOnlyI0
    else audioOnlyI0
  let p1 :=
    if pairing then
      audioOnlyI.head?.elim (st0, ([] : List Nat))
        (fun best => buildMergedRef best videoOnlyI st0)
    else (st0, [])
  let st1 := p1.1
  let r1 := combinedI ++ p1.2
  let p2 :=
    if r1.isEmpty && !videoOnlyI.isEmpty then
      let q := fallbackRef videoOnlyI st1
      (q.1, r1 ++ q.2)
    else (st1, r1)
  let st2 := p2.1
  let p3 := penalizeRef audioOnlyI st2
  let st3 := p3.1
  let r3 := p2.2 ++ p3.2
  let sorted := sortDescBy (fun i => get_format_quality_score (readS st3 i)) r3
  (st3, dedupLoopRef st3 sorted [] [] none)

/-! ## Concrete inputs used by the claims -/

/-- The 1080p video-only raw format of spec scenario 1. -/
def fmtVideo1080A : Fmt :=
  { height := some 1080, vcodec := some "avc1", acodec := some "none",
    ext := some "mp4", url := some "A" }

/-- The audio-only raw format of spec scenario 1. -/
def fmtAudioAacB : Fmt :=
  { height := some 0, vcodec := some "none", acodec := some "aac",
    abr := some 128, ext := some "m4a", url := some "B" }

/-- A clean video-only format (no audio codec, no `audio_ext` key). -/
def fmtVideoOnlyPlain : Fmt := { url := some "A", vcodec := some "avc1" }

/-- A 1080p combined format in a webm container. -/
def fmtCombinedWebm : Fmt :=
  { height := some 1080, vcodec := some "avc1", acodec := some "mp4a.40.2",
    ext := some "webm", url := some "W" }

/-- The same 1080p combined format in an mp4 container. -/
def fmtCombinedMp4 : Fmt :=
  { height := some 1080, vcodec := some "avc1", acodec := some "mp4a.40.2",
    ext := some "mp4", url := some "M" }

/-- A raw record whose `upload_date` has 8 characters but is not made of
digits. -/
def recNonDigitDate : RawRecord := { upload_date := some "abcdefgh" }

/-- A raw record with a well-formed 8-digit `upload_date`. -/
def recDigitDate : RawRecord := { upload_date := some "20240131" }

/-- Extract the single-record payload of a `TransformResult`. -/
def singleOf : TransformResult → Option NormalizedRecord
  | .single r => some r
  | .playlistR _ => none

/-- An empty normalized record, used as a `getD` default. -/
def emptyNormalizedRecord : NormalizedRecord :=
  { id := "", title := "", original_title := "", webpage_url := "",
    duration := none, formats := [], subtitles := [], thumbnails := [] }

/-- The single-record payload of `transform_single` on `recDigitDate`
(used by the witness of the upload-date theorem). -/
def recDigitDateOut : NormalizedRecord :=
  (singleOf (transform_single (fun s => s) none recDigitDate)).getD emptyNormalizedRecord

/-- Audio-information predicate of the reconciler invariant: an embedded real
audio codec, a merged `audio_ext`, or a merged companion URL. -/
def carriesAudioInfo (f : Fmt) : Bool :=
  has_audio f || truthyS f.audio_ext || f.audioUrlM.isSome

/-- The pairwise relation "video-capable entries have distinct height keys". -/
def distinctVideoHeights (f g : Fmt) : Prop :=
  has_video f = true → has_video g = true → heightKey f ≠ heightKey g

/-- Store preservation below an address bound: every cell with address `< n`
is unchanged (and the store has not shrunk below `n`). -/
def PreservesBelow (n : Nat) (st st' : Store) : Prop :=
  n ≤ st'.mem.length ∧ ∀ i, i < n → readS st' i = readS st i

end Croxz

namespace Croxz

/-! ## General list lemmas -/

theorem mem_of_head?_append {x y : List Char} {a : Char} (h : x.head? = some a) :
    (x ++ y).head? = some a := by
  cases x <;> simp_all

theorem head?_dropWhile_false {p : Char → Bool} :
    ∀ {l : List Char} {a : Char}, (l.dropWhile p).head? = some a → p a = false := by
  intro l
  induction l with
  | nil => intro a h; simp [List.dropWhile] at h
  | cons x xs ih =>
    intro a h
    rw [List.dropWhile_cons] at h
    split at h
    · exact ih h
    · simp only [List.head?_cons, Option.some.injEq] at h
      subst h
      simp_all

theorem rdrop_append_eq {p : Char → Bool} (l : List Char) :
    rdrop p l ++ (l.reverse.takeWhile p).reverse = l := by
  unfold rdrop
  rw [← List.reverse_append, List.takeWhile_append_dropWhile, List.reverse_reverse]

theorem head?_rdrop {p : Char → Bool} {l : List Char} {a : Char}
    (h : (rdrop p l).head? = some a) : l.head? = some a := by
  conv_lhs => rw [← rdrop_append_eq (p := p) l]
  exact mem_of_head?_append h

theorem getLast?_rdrop_false {p : Char → Bool} {l : List Char} {a : Char}
    (h : (rdrop p l).getLast? = some a) : p a = false := by
  unfold rdrop at h
  rw [List.getLast?_reverse] at h
  exact head?_dropWhile_false h

theorem mem_rdrop {p : Char → Bool} {l : List Char} {a : Char} (h : a ∈ rdrop p l) :
    a ∈ l := by
  unfold rdrop at h
  rw [List.mem_reverse] at h
  exact List.mem_reverse.mp (List.dropWhile_subset p h)

theorem length_rdrop_le {p : Char → Bool} (l : List Char) :
    (rdrop p l).length ≤ l.length := by
  unfold rdrop
  rw [List.length_reverse]
  calc (l.reverse.dropWhile p).length ≤ l.reverse.length := (List.dropWhile_suffix p).length_le
    _ = l.length := List.length_reverse l

theorem head?_take_some {n : Nat} {l : List Char} {a : Char}
    (h : (l.take n).head? = some a) : l.head? = some a := by
  cases l <;> cases n <;> simp_all

theorem mem_of_getLast?_some {l : List Char} {a : Char} (h : l.getLast? = some a) :
    a ∈ l := by
  have h2 : l.reverse.reverse.getLast? = some a := by rwa [List.reverse_reverse]
  rw [List.getLast?_reverse] at h2
  cases hr : l.reverse with
  | nil => rw [hr] at h2; simp at h2
  | cons b t =>
    rw [hr] at h2
    simp only [List.head?_cons, Option.some.injEq] at h2
    subst h2
    exact List.mem_reverse.mp (by rw [hr]; exact List.mem_cons_self b t)

/-! ## Sanitizer lemmas -/

theorem mem_asciiIgnore {l : List Char} {c : Char} (h : c ∈ asciiIgnore l) :
    c.toNat ≤ 127 := by
  unfold asciiIgnore at h
  simpa using (List.mem_filter.mp h).2

theorem mem_asciiText {nfkd : String → String} {title : String} {c : Char}
    (h : c ∈ asciiText nfkd title) : c.toNat ≤ 127 := by
  simp only [asciiText] at h
  split at h <;> exact mem_asciiIgnore h

theorem mem_removeInvalid {l : List Char} {c : Char} (h : c ∈ removeInvalid l) :
    c ∈ l ∧ isInvalidFileChar c = false := by
  unfold removeInvalid at h
  have h2 := List.mem_filter.mp h
  exact ⟨h2.1, by simpa using h2.2⟩

theorem mem_collapseAux {c : Char} :
    ∀ {b : Bool} {l : List Char}, c ∈ collapseAux b l →
      c = '_' ∨ (c ∈ l ∧ isSpaceOrUnderscore c = false) := by
  intro b l
  induction l generalizing b with
  | nil => intro h; simp [collapseAux] at h
  | cons x xs ih =>
    intro h
    unfold collapseAux at h
    split at h
    · split at h
      · rcases ih h with h1 | ⟨h2, h3⟩
        · exact Or.inl h1
        · exact Or.inr ⟨List.mem_cons_of_mem x h2, h3⟩
      · rcases List.mem_cons.mp h with h1 | h1
        · exact Or.inl h1
        · rcases ih h1 with h2 | ⟨h3, h4⟩
          · exact Or.inl h2
          · exact Or.inr ⟨List.mem_cons_of_mem x h3, h4⟩
    · rcases List.mem_cons.mp h with h1 | h1
      · subst h1
        exact Or.inr ⟨List.mem_cons_self c xs, by simp_all⟩
      · rcases ih h1 with h2 | ⟨h3, h4⟩
        · exact Or.inl h2
        · exact Or.inr ⟨List.mem_cons_of_mem x h3, h4⟩

theorem mem_stripBoth {l : List Char} {c : Char} (h : c ∈ stripBoth l) : c ∈ l := by
  unfold stripBoth at h
  exact List.dropWhile_subset isStripChar (mem_rdrop h)

theorem mem_cleanPipeline {a : List Char} {m : Nat} {c : Char}
    (h : c ∈ cleanPipeline a m) :
    c = '_' ∨ (c ∈ a ∧ isInvalidFileChar c = false ∧ isSpaceOrUnderscore c = false) := by
  have hc3 : c ∈ stripBoth (collapseRuns (removeInvalid a)) := by
    simp only [cleanPipeline] at h
    split at h
    · exact List.mem_of_mem_take (mem_rdrop h)
    · exact h
  have hc2 : c ∈ collapseRuns (removeInvalid a) := mem_stripBoth hc3
  rcases mem_collapseAux hc2 with h1 | ⟨h2, h3⟩
  · exact Or.inl h1
  · have h4 := mem_removeInvalid h2
    exact Or.inr ⟨h4.1, h4.2, h3⟩

theorem length_cleanPipeline_le (a : List Char) (m : Nat) :
    (cleanPipeline a m).length ≤ m := by
  simp only [cleanPipeline]
  split
  · calc (rdrop (fun c => c == '_') ((stripBoth (collapseRuns (removeInvalid a))).take m)).length
        ≤ ((stripBoth (collapseRuns (removeInvalid a))).take m).length := length_rdrop_le _
      _ ≤ m := by rw [List.length_take]; exact Nat.min_le_left _ _
  · omega

theorem head?_stripBoth_false {l : List Char} {c : Char}
    (h : (stripBoth l).head? = some c) : isStripChar c = false := by
  unfold stripBoth at h
  exact head?_dropWhile_false (head?_rdrop h)

theorem head?_cleanPipeline_false {a : List Char} {m : Nat} {c : Char}
    (h : (cleanPipeline a m).head? = some c) : isStripChar c = false := by
  simp only [cleanPipeline] at h
  split at h
  · exact head?_stripBoth_false (head?_take_some (head?_rdrop h))
  · exact head?_stripBoth_false h

theorem getLast?_stripBoth_false {l : List Char} {c : Char}
    (h : (stripBoth l).getLast? = some c) : isStripChar c = false := by
  unfold stripBoth at h
  exact getLast?_rdrop_false h

theorem getLast?_cleanPipeline {a : List Char} {m : Nat} {c : Char}
    (h : (cleanPipeline a m).getLast? = some c) : c ≠ '_' ∧ c ≠ ' ' := by
  have hmem : c ∈ cleanPipeline a m := mem_of_getLast?_some h
  have hnotu : c ≠ '_' → c ≠ ' ' := by
    intro hu
    rcases mem_cleanPipeline hmem with h1 | ⟨_, _, h3⟩
    · exact absurd h1 hu
    · intro hsp
      subst hsp
      simp [isSpaceOrUnderscore] at h3
  simp only [cleanPipeline] at h
  split at h
  · have h1 := getLast?_rdrop_false (p := fun ch => ch == '_') h
    have h2 : c ≠ '_' := by simpa using h1
    exact ⟨h2, hnotu h2⟩
  · have h1 := getLast?_stripBoth_false h
    have h2 : c ≠ '_' := by
      intro hc; subst hc; simp [isStripChar] at h1
    exact ⟨h2, hnotu h2⟩

theorem sanitize_eq_cases (nfkd : String → String) (title : String) (m : Nat) :
    sanitize_filename nfkd title m = "download" ∨
    ((sanitize_filename nfkd title m).data = cleanPipeline (asciiText nfkd title) m ∧
      cleanPipeline (asciiText nfkd title) m ≠ []) := by
  simp only [sanitize_filename]
  split
  · exact Or.inl rfl
  · split
    · exact Or.inl rfl
    · rename_i h2
      exact Or.inr ⟨rfl, by simpa using h2⟩

/-- Claim C5 is refuted at `title = ""`, `maxLength = 1`: the sanitizer
returns the literal `"download"`, whose length 8 exceeds the bound 1 that the
claim promises for every positive `maxLength`. -/
theorem C5_counterexample_sanitize_length :
    sanitize_filename (fun s => s) "" 1 = "download" ∧
    ¬ (sanitize_filename (fun s => s) "" 1).data.length ≤ 1 := by
  constructor
  · rfl
  · decide

/-- Claim C5 (corrected): for every normalization, title and positive
`maxLength`, `sanitize_filename` returns a non-empty all-ASCII string that
contains none of the forbidden filename characters and no control characters,
and `sanitize_filename("") = "download"`; the length is at most `maxLength`
except when the fallback literal `"download"` (length 8) is returned. -/
theorem C5_sanitize_safe (nfkd : String → String) (title : String) (maxLen : Nat)
    (_hpos : 0 < maxLen) :
    sanitize_filename nfkd "" maxLen = "download" ∧
    sanitize_filename nfkd title maxLen ≠ "" ∧
    (∀ c ∈ (sanitize_filename nfkd title maxLen).data,
      c.toNat ≤ 127 ∧ isInvalidFileChar c = false) ∧
    (sanitize_filename nfkd title maxLen = "download" ∨
      (sanitize_filename nfkd title maxLen).data.length ≤ maxLen) := by
  refine ⟨rfl, ?_, ?_, ?_⟩
  · rcases sanitize_eq_cases nfkd title maxLen with h | ⟨h1, h2⟩
    · rw [h]; decide
    · intro he
      apply h2
      rw [← h1, he]
  · intro c hc
    rcases sanitize_eq_cases nfkd title maxLen with h | ⟨h1, _⟩
    · rw [h] at hc
      have hall : ∀ c ∈ ("download" : String).data, c.toNat ≤ 127 ∧ isInvalidFileChar c = false := by
        decide
      exact hall c hc
    · rw [h1] at hc
      rcases mem_cleanPipeline hc with h2 | ⟨h3, h4, _⟩
      · subst h2; exact ⟨by decide, by decide⟩
      · exact ⟨mem_asciiText h3, h4⟩
  · rcases sanitize_eq_cases nfkd title maxLen with h | ⟨h1, _⟩
    · exact Or.inl h
    · refine Or.inr ?_
      rw [h1]
      exact length_cleanPipeline_le _ _

/-- Witness for C5 at `nfkd = id`, `title = "ab"`, `maxLength = 200`. -/
theorem C5_sanitize_safe_witness :
    sanitize_filename (fun s => s) "" 200 = "download" ∧
    sanitize_filename (fun s => s) "ab" 200 ≠ "" ∧
    (∀ c ∈ (sanitize_filename (fun s => s) "ab" 200).data,
      c.toNat ≤ 127 ∧ isInvalidFileChar c = false) ∧
    (sanitize_filename (fun s => s) "ab" 200 = "download" ∨
      (sanitize_filename (fun s => s) "ab" 200).data.length ≤ 200) :=
  C5_sanitize_safe (fun s => s) "ab" 200 (by decide)

/-- Claim C6 is refuted at `title = "a.b"`, `maxLength = 2`: truncation cuts
the name to `"a."`, and the truncation step only strips a trailing
underscore, so the result ends with a dot. -/
theorem C6_counterexample_trailing_dot :
    sanitize_filename (fun s => s) "a.b" 2 = "a." ∧
    ("a." : String).data.getLast? = some '.' := by
  constructor
  · decide
  · decide

/-- Claim C6 (corrected): the sanitizer's output never starts with an
underscore, a dot or a space, and never ends with an underscore or a space;
after `maxLength` truncation, however, it can end with a dot, because the
truncation step trims only a trailing underscore. -/
theorem C6_sanitize_trim (nfkd : String → String) (title : String) (maxLen : Nat) :
    (∀ c, (sanitize_filename nfkd title maxLen).data.head? = some c →
      isStripChar c = false) ∧
    (∀ c, (sanitize_filename nfkd title maxLen).data.getLast? = some c →
      c ≠ '_' ∧ c ≠ ' ') := by
  constructor
  · intro c hc
    rcases sanitize_eq_cases nfkd title maxLen with h | ⟨h1, _⟩
    · rw [h] at hc
      have hd : ("download" : String).data.head? = some 'd' := rfl
      rw [hd] at hc
      injection hc with hc2
      subst hc2
      decide
    · rw [h1] at hc
      exact head?_cleanPipeline_false hc
  · intro c hc
    rcases sanitize_eq_cases nfkd title maxLen with h | ⟨h1, _⟩
    · rw [h] at hc
      have hd : ("download" : String).data.getLast? = some 'd' := by decide
      rw [hd] at hc
      injection hc with hc2
      subst hc2
      exact ⟨by decide, by decide⟩
    · rw [h1] at hc
      exact getLast?_cleanPipeline hc

/-- Witness for C6 at `nfkd = id`, `title = "ab"`, `maxLength = 200`. -/
theorem C6_sanitize_trim_witness :
    isStripChar 'a' = false ∧ ('b' ≠ '_' ∧ 'b' ≠ ' ') :=
  ⟨(C6_sanitize_trim (fun s => s) "ab" 200).1 'a' (by decide),
   (C6_sanitize_trim (fun s => s) "ab" 200).2 'b' (by decide)⟩

/-! ## Reconciler theorems -/

/-- Claim C2: on the two-format input of spec scenario 1 the reconciler
returns exactly two entries — first the 1080p video entry with url `"A"`,
flagged `_needs_merge`, carrying `_audio_url = "B"` and the audio's
codec/bitrate/container; second the audio-only entry with url `"B"` whose
preference is penalized by 50. -/
theorem C2_scenario1 :
    (merge_video_audio_formats [fmtVideo1080A, fmtAudioAacB]).length = 2 ∧
    ((merge_video_audio_formats [fmtVideo1080A, fmtAudioAacB]).getD 0 {}).url = some "A" ∧
    ((merge_video_audio_formats [fmtVideo1080A, fmtAudioAacB]).getD 0 {}).height = some 1080 ∧
    ((merge_video_audio_formats [fmtVideo1080A, fmtAudioAacB]).getD 0 {}).needsMergeM = true ∧
    ((merge_video_audio_formats [fmtVideo1080A, fmtAudioAacB]).getD 0 {}).audioUrlM = some "B" ∧
    ((merge_video_audio_formats [fmtVideo1080A, fmtAudioAacB]).getD 0 {}).acodec = some "aac" ∧
    ((merge_video_audio_formats [fmtVideo1080A, fmtAudioAacB]).getD 0 {}).abr = some 128 ∧
    ((merge_video_audio_formats [fmtVideo1080A, fmtAudioAacB]).getD 0 {}).audio_ext = some "m4a" ∧
    ((merge_video_audio_formats [fmtVideo1080A, fmtAudioAacB]).getD 1 {}).url = some "B" ∧
    ((merge_video_audio_formats [fmtVideo1080A, fmtAudioAacB]).getD 1 {}).preference = some (-50) ∧
    has_video ((merge_video_audio_formats [fmtVideo1080A, fmtAudioAacB]).getD 1 {}) = false ∧
    has_audio ((merge_video_audio_formats [fmtVideo1080A, fmtAudioAacB]).getD 1 {}) = true := by
  decide

/-- Claim C4 fails on the code: for an input containing one clean video-only
format and nothing else, the fallback block (lines 483-487) adds the format
marked `_video_only`, but the dedup filter (lines 513-520) then drops every
video-capable entry without audio information, so the reconciler returns the
empty list instead of the promised non-empty fallback. -/
theorem C4_video_only_fallback_dropped :
    merge_video_audio_formats [fmtVideoOnlyPlain] = [] := by
  decide

theorem dedupLoop_video_audio :
    ∀ (rest : List Fmt) (seen : List Int) (vids : List Fmt) (best : Option Fmt),
      (∀ f ∈ vids, has_video f = true → (has_audio f || truthyS f.audio_ext) = true) →
      (∀ b, best = some b → has_video b = false) →
      ∀ f ∈ dedupLoop rest seen vids best, has_video f = true →
        (has_audio f || truthyS f.audio_ext) = true := by
  intro rest
  induction rest with
  | nil =>
    intro seen vids best hv hb f hf hvf
    simp only [dedupLoop] at hf
    rcases List.mem_append.mp hf with h | h
    · exact hv f h hvf
    · cases best with
      | none => simp at h
      | some b =>
        simp only [List.mem_singleton] at h
        subst h
        rw [hb f rfl] at hvf
        cases hvf
  | cons x rest ih =>
    intro seen vids best hv hb f hf hvf
    simp only [dedupLoop] at hf
    split at hf
    · split at hf
      · split at hf
        · exact ih _ _ _ hv hb f hf hvf
        · refine ih _ _ _ ?_ hb f hf hvf
          intro g hg hvg
          rcases List.mem_append.mp hg with h1 | h1
          · exact hv g h1 hvg
          · simp only [List.mem_singleton] at h1
            subst h1
            assumption
      · exact ih _ _ _ hv hb f hf hvf
    · split at hf
      · refine ih _ _ _ hv ?_ f hf hvf
        intro b hb2
        injection hb2 with hb3
        subst hb3
        rename_i h1 _
        exact Bool.not_eq_true _ ▸ (by simpa using h1)
      · exact ih _ _ _ hv hb f hf hvf

/-- Claim C1: every entry of the reconciler's output that has a real video
codec also carries audio information — an embedded real audio codec, a merged
`audio_ext`, or a merged `_audio_url`.  (This holds with no exception: even
when no video-with-audio candidate exists, the dedup filter drops the
audio-less fallback entries rather than emitting them.) -/
theorem C1_video_carries_audio (formats : List Fmt) (f : Fmt)
    (hf : f ∈ merge_video_audio_formats formats) (hv : has_video f = true) :
    carriesAudioInfo f = true := by
  simp only [merge_video_audio_formats] at hf
  have h := dedupLoop_video_audio _ _ _ _ (by intro g hg; simp at hg)
    (by intro b hb; cases hb) f hf hv
  unfold carriesAudioInfo
  rcases Bool.or_eq_true_iff.mp h with h1 | h1 <;> simp [h1]

/-- Witness for C1 on the scenario-1 input: the merged 1080p entry is in the
output, has video, and carries audio information. -/
theorem C1_video_carries_audio_witness :
    carriesAudioInfo ((merge_video_audio_formats [fmtVideo1080A, fmtAudioAacB]).getD 0 {}) = true :=
  C1_video_carries_audio [fmtVideo1080A, fmtAudioAacB]
    ((merge_video_audio_formats [fmtVideo1080A, fmtAudioAacB]).getD 0 {})
    (by decide) (by decide)

theorem dedupLoop_pairwise :
    ∀ (rest : List Fmt) (seen : List Int) (vids : List Fmt) (best : Option Fmt),
      (∀ v ∈ vids, has_video v = true) →
      (∀ v ∈ vids, heightKey v ∈ seen) →
      List.Pairwise (fun a b => heightKey a ≠ heightKey b) vids →
      (∀ b, best = some b → has_video b = false) →
      List.Pairwise distinctVideoHeights (dedupLoop rest seen vids best) := by
  intro rest
  induction rest with
  | nil =>
    intro seen vids best hv hs hp hb
    simp only [dedupLoop]
    rw [List.pairwise_append]
    refine ⟨hp.imp (fun hne _ _ => hne), ?_, ?_⟩
    · cases best <;> simp
    · intro a ha b hbm
      cases best with
      | none => simp at hbm
      | some b0 =>
        simp only [List.mem_singleton] at hbm
        subst hbm
        intro _ hvb
        rw [hb b rfl] at hvb
        cases hvb
  | cons x rest ih =>
    intro seen vids best hv hs hp hb
    simp only [dedupLoop]
    split
    · split
      · split
        · exact ih _ _ _ hv hs hp hb
        · rename_i hvx _ hseen
          refine ih _ _ _ ?_ ?_ ?_ hb
          · intro v hvm
            rcases List.mem_append.mp hvm with h1 | h1
            · exact hv v h1
            · simp only [List.mem_singleton] at h1
              subst h1
              assumption
          · intro v hvm
            rcases List.mem_append.mp hvm with h1 | h1
            · exact List.mem_cons_of_mem _ (hs v h1)
            · simp only [List.mem_singleton] at h1
              subst h1
              exact List.mem_cons_self _ _
          · rw [List.pairwise_append]
            refine ⟨hp, by simp, ?_⟩
            intro a ha b hbm
            simp only [List.mem_singleton] at hbm
            subst hbm
            intro hEq
            apply hseen
            rw [← hEq]
            exact List.elem_eq_true_of_mem (hs a ha)
      · exact ih _ _ _ hv hs hp hb
    · split
      · refine ih _ _ _ hv hs hp ?_
        intro b hb2
        injection hb2 with hb3
        subst hb3
        rename_i h1 _
        exact Bool.not_eq_true _ ▸ (by simpa using h1)
      · exact ih _ _ _ hv hs hp hb

/-- Claim C3: the reconciler keeps at most one video-capable format per
height key, and on two otherwise-equal 1080p combined formats (one webm, one
mp4, the webm listed first) exactly the mp4 one survives, by the container
bonus in the quality score. -/
theorem C3_height_dedup :
    (∀ formats : List Fmt,
      List.Pairwise distinctVideoHeights (merge_video_audio_formats formats)) ∧
    merge_video_audio_formats [fmtCombinedWebm, fmtCombinedMp4] = [fmtCombinedMp4] := by
  constructor
  · intro formats
    simp only [merge_video_audio_formats]
    exact dedupLoop_pairwise _ _ _ _ (by intro v hv; simp at hv)
      (by intro v hv; simp at hv) (by simp) (by intro b hb; cases hb)
  · decide

/-- Witness for C3 on the scenario-1 input. -/
theorem C3_height_dedup_witness :
    List.Pairwise distinctVideoHeights
      (merge_video_audio_formats [fmtVideo1080A, fmtAudioAacB]) :=
  C3_height_dedup.1 [fmtVideo1080A, fmtAudioAacB]

/-! ## URL classifier theorems -/

set_option maxRecDepth 10000 in
theorem all_direct_not_file :
    ∀ e ∈ ALL_DIRECT_EXTENSIONS, ¬ get_file_category e = "file" := by
  have h : ALL_DIRECT_EXTENSIONS.all (fun x => !(get_file_category x == "file")) = true := by
    decide
  intro e he
  have h2 := List.all_eq_true.mp h e he
  simpa using h2

theorem isDirect_iff (url : String) :
    is_direct_download_url url = true ↔
      ∃ e, get_extension_from_url url = some e ∧ e ∈ ALL_DIRECT_EXTENSIONS := by
  unfold is_direct_download_url
  cases hx : get_extension_from_url url with
  | none => simp
  | some e => simp [List.elem_iff]

/-- Claim C7: a URL is classified as a direct download exactly when the
lowercased extension of the last path segment of its decoded path is
extracted (non-empty, alphanumeric, at most 10 characters) and belongs to
one of the eight category extension sets; an extension whose category is
`"file"` is never direct.  The two spec examples evaluate as claimed. -/
theorem C7_direct_classifier :
    (∀ url : String,
      (is_direct_download_url url = true ↔
        ∃ e, get_extension_from_url url = some e ∧
          (e ∈ ARCHIVE_EXTENSIONS ∨ e ∈ EXECUTABLE_EXTENSIONS ∨
           e ∈ DOCUMENT_EXTENSIONS ∨ e ∈ IMAGE_EXTENSIONS ∨
           e ∈ AUDIO_EXTENSIONS ∨ e ∈ VIDEO_EXTENSIONS ∨
           e ∈ FONT_EXTENSIONS ∨ e ∈ CODE_EXTENSIONS)) ∧
      (∀ e, get_extension_from_url url = some e →
        e.data.length ≤ 10 ∧ e.data ≠ [] ∧ e.data.all isAlnumAscii = true) ∧
      (∀ e, get_extension_from_url url = some e → get_file_category e = "file" →
        is_direct_download_url url = false)) ∧
    is_direct_download_url "https://x.com/a/report.pdf" = true ∧
    get_extension_from_url "https://x.com/a/report.pdf" = some "pdf" ∧
    get_file_category "pdf" = "document" ∧
    analyze_url false "https://x.com/a/report.pdf" =
      { url := "https://x.com/a/report.pdf", is_direct := true, has_ytdlp := false,
        extension := some "pdf", filename := "report.pdf",
        category := some "document" } ∧
    is_direct_download_url "https://x.com/watch?v=abc" = false ∧
    get_extension_from_url "https://x.com/watch?v=abc" = none := by
  refine ⟨?_, by decide, by decide, by decide, ?ana, by decide, by decide⟩
  case ana => decide
  intro url
  refine ⟨?_, ?_, ?_⟩
  · rw [isDirect_iff]
    constructor
    · rintro ⟨e, he, hm⟩
      refine ⟨e, he, ?_⟩
      simpa [ALL_DIRECT_EXTENSIONS, List.mem_append, or_assoc] using hm
    · rintro ⟨e, he, hm⟩
      refine ⟨e, he, ?_⟩
      simpa [ALL_DIRECT_EXTENSIONS, List.mem_append, or_assoc] using hm
  · intro e he
    simp only [get_extension_from_url] at he
    obtain ⟨fn, hfn⟩ : ∃ fn, (extract_filename_from_url url).data = fn := ⟨_, rfl⟩
    rw [hfn] at he
    obtain ⟨ex, hex⟩ : ∃ ex, pyLower (afterLast '.' fn) = ex := ⟨_, rfl⟩
    rw [hex] at he
    split at he
    · split at he
      · rename_i hcond
        injection he with he2
        subst he2
        have h3 := hcond
        simp only [Bool.and_eq_true] at h3
        refine ⟨?_, ?_, h3.2⟩
        · simpa using h3.1.1
        · have h4 := h3.1.2
          simpa [List.isEmpty_iff] using h4
      · cases he
    · cases he
  · intro e he hcat
    by_contra hdir
    have hd : is_direct_download_url url = true := by
      cases hD : is_direct_download_url url
      · exact absurd hD hdir
      · rfl
    rcases (isDirect_iff url).mp hd with ⟨e2, he2, hm2⟩
    rw [he] at he2
    injection he2 with he3
    subst he3
    exact all_direct_not_file e hm2 hcat

/-! ## Transformer theorems -/

/-- Claim C8 is refuted on a record whose `upload_date` is the 8-character
non-digit string `"abcdefgh"`: the code checks only the length, so the output
record carries `upload_date = "abcd-ef-gh"` even though the raw value is not
made of digits (the claim promises the field is omitted then). -/
theorem C8_counterexample_non_digit_date :
    singleOf (transform_single (fun s => s) none recNonDigitDate) ≠ none ∧
    ((singleOf (transform_single (fun s => s) none recNonDigitDate)).getD
        emptyNormalizedRecord).upload_date = some "abcd-ef-gh" ∧
    ("abcdefgh" : String).data.all (fun c => !c.isDigit) = true := by
  refine ⟨by decide, by decide, by decide⟩

/-- Claim C8 (corrected): the transformed record carries an `upload_date`
field (the `YYYY-MM-DD` slicing of the raw value) exactly when the raw
`upload_date` is a string of exactly 8 characters; the characters themselves
are not checked, so any 8-character value is sliced the same way. -/
theorem C8_upload_date (nfkd : String → String) (ytver : Option String)
    (d : RawRecord) (r : NormalizedRecord)
    (h : transform_single nfkd ytver d = .single r) :
    r.upload_date = pyUploadDate d.upload_date ∧
    ((∃ v, r.upload_date = some v) ↔
      ∃ s, d.upload_date = some s ∧ s.data.length = 8) ∧
    (∀ s, d.upload_date = some s → s.data.length = 8 →
      r.upload_date = some (String.mk (s.data.take 4) ++ "-" ++
        String.mk ((s.data.drop 4).take 2) ++ "-" ++ String.mk ((s.data.drop 6).take 2))) := by
  have hr : r.upload_date = pyUploadDate d.upload_date := by
    unfold transform_single at h
    split at h
    · cases h
    · injection h with h2
      subst h2
      rfl
  refine ⟨hr, ?_, ?_⟩
  · rw [hr]
    cases hd : d.upload_date with
    | none => simp [pyUploadDate]
    | some s =>
      simp only [pyUploadDate]
      split
      · rename_i hcond
        simp only [Bool.and_eq_true] at hcond
        constructor
        · intro _
          exact ⟨s, rfl, by simpa using hcond.2⟩
        · intro _
          exact ⟨_, rfl⟩
      · rename_i hcond
        constructor
        · rintro ⟨v, hv⟩
          cases hv
        · rintro ⟨s2, hs2, hlen⟩
          injection hs2 with hs3
          subst hs3
          exfalso
          apply hcond
          simp only [Bool.and_eq_true]
          have hne : s ≠ "" := fun habs => absurd (habs ▸ hlen) (by decide)
          exact ⟨by simpa using hne, by simpa using hlen⟩
  · intro s hs hlen
    rw [hr, hs]
    simp only [pyUploadDate]
    rw [if_pos]
    have hne : s ≠ "" := fun habs => absurd (habs ▸ hlen) (by decide)
    simp only [Bool.and_eq_true]
    exact ⟨by simpa using hne, by simpa using hlen⟩

/-- Witness for C8 on a record with the well-formed date `"20240131"`. -/
theorem C8_upload_date_witness :
    recDigitDateOut.upload_date = pyUploadDate recDigitDate.upload_date :=
  (C8_upload_date (fun s => s) none recDigitDate recDigitDateOut (by decide)).1

/-- Claim C9: on every non-playlist record, `transform_single` returns the
single-record shape (never a top-level error value — errors are not even in
its result type), with the normalized id and title; when the final format
list is empty the record carries the inline `_error` note, the remediation
hint and the extractor version probe result, and when formats exist no
`_error` note is attached. -/
theorem C9_no_formats_soft_error (nfkd : String → String) (ytver : Option String)
    (d : RawRecord) (h : ¬ d.rtype = some "playlist") :
    ∃ r, transform_single nfkd ytver d = .single r ∧
      r.id = d.id.getD "" ∧
      r.title = sanitize_filename nfkd (d.title.getD "Unknown Title") 200 ∧
      r.original_title = d.title.getD "Unknown Title" ∧
      (r.formats = [] →
        r.errNote = some "No downloadable formats found" ∧
        r.hint = some "Try updating yt-dlp: yt-dlp -U" ∧
        r.ytdlpVerKey = some ytver) ∧
      (r.formats ≠ [] → r.errNote = none) := by
  unfold transform_single
  rw [if_neg (by simpa using h)]
  refine ⟨_, rfl, rfl, rfl, rfl, ?_, ?_⟩
  · intro hf
    have hf2 : finalFormats nfkd d = [] := hf
    have he : (finalFormats nfkd d).isEmpty = true := by rw [hf2]; rfl
    simp only [he]
    exact ⟨rfl, rfl, rfl⟩
  · intro hf
    have hf2 : ¬ finalFormats nfkd d = [] := hf
    have he : (finalFormats nfkd d).isEmpty = false := by
      cases hE : (finalFormats nfkd d).isEmpty
      · rfl
      · exact absurd (List.isEmpty_iff.mp hE) hf2
    simp only [he]
    rfl

/-- Witness for C9 on the empty raw record (which yields no formats). -/
theorem C9_no_formats_soft_error_witness :
    ∃ r, transform_single (fun s => s) none ({} : RawRecord) = .single r ∧
      r.id = (({} : RawRecord)).id.getD "" ∧
      r.title = sanitize_filename (fun s => s) ((({} : RawRecord)).title.getD "Unknown Title") 200 ∧
      r.original_title = (({} : RawRecord)).title.getD "Unknown Title" ∧
      (r.formats = [] →
        r.errNote = some "No downloadable formats found" ∧
        r.hint = some "Try updating yt-dlp: yt-dlp -U" ∧
        r.ytdlpVerKey = some none) ∧
      (r.formats ≠ [] → r.errNote = none) :=
  C9_no_formats_soft_error (fun s => s) none {} (by decide)

/-! ## Frame theorem for the reconciler -/

theorem readS_alloc {st : Store} {f : Fmt} {i : Nat} (h : i < st.mem.length) :
    readS (allocS st f).1 i = readS st i := by
  unfold readS allocS
  exact List.getD_append _ _ _ _ h

theorem readS_write_ne {st : Store} {j : Nat} {f : Fmt} {i : Nat} (hne : j ≠ i) :
    readS (writeS st j f) i = readS st i := by
  unfold readS writeS
  rw [List.getD_eq_getElem?_getD, List.getD_eq_getElem?_getD, List.getElem?_set_ne hne]

theorem pb_refl {n : Nat} {st : Store} (h : n ≤ st.mem.length) : PreservesBelow n st st :=
  ⟨h, fun _ _ => rfl⟩

theorem pb_comp {n : Nat} {st1 st2 st3 : Store} (h1 : PreservesBelow n st1 st2)
    (h2 : n ≤ st2.mem.length → PreservesBelow n st2 st3) : PreservesBelow n st1 st3 :=
  ⟨(h2 h1.1).1, fun i hi => ((h2 h1.1).2 i hi).trans (h1.2 i hi)⟩

theorem pb_alloc {n : Nat} {st : Store} {f : Fmt} (h : n ≤ st.mem.length) :
    PreservesBelow n st (allocS st f).1 := by
  refine ⟨?_, fun i hi => readS_alloc (Nat.lt_of_lt_of_le hi h)⟩
  simp only [allocS, List.length_append, List.length_cons, List.length_nil]
  omega

theorem pb_write {n : Nat} {st : Store} {j : Nat} {f : Fmt} (h : n ≤ st.mem.length)
    (hj : n ≤ j) : PreservesBelow n st (writeS st j f) := by
  refine ⟨?_, fun i hi => readS_write_ne (Nat.ne_of_gt (Nat.lt_of_lt_of_le hi hj))⟩
  simpa [writeS] using h

theorem pb_mkMerged {n : Nat} {st : Store} {b v : Nat} (h : n ≤ st.mem.length) :
    PreservesBelow n st (mkMergedRef st b v).1 := by
  unfold mkMergedRef allocS
  dsimp only
  exact pb_comp
    (pb_comp
      (pb_comp
        (pb_comp
          (pb_comp (pb_alloc (f := readS st v) h) (fun h1 => pb_write h1 h))
          (fun h2 => pb_write h2 h))
        (fun h3 => pb_write h3 h))
      (fun h4 => pb_write h4 h))
    (fun h5 => pb_write h5 h)

theorem pb_build {n : Nat} {b : Nat} :
    ∀ (l : List Nat) (st : Store), n ≤ st.mem.length →
      PreservesBelow n st (buildMergedRef b l st).1 := by
  intro l
  induction l with
  | nil => intro st h; exact pb_refl h
  | cons v vs ih =>
    intro st h
    simp only [buildMergedRef]
    exact pb_comp (pb_mkMerged h) (fun h1 => ih _ h1)

theorem pb_fallback {n : Nat} :
    ∀ (l : List Nat) (st : Store), n ≤ st.mem.length →
      PreservesBelow n st (fallbackRef l st).1 := by
  intro l
  induction l with
  | nil => intro st h; exact pb_refl h
  | cons v vs ih =>
    intro st h
    simp only [fallbackRef, allocS]
    exact pb_comp
      (pb_comp (pb_alloc (f := readS st v) h) (fun h1 => pb_write h1 h))
      (fun h2 => ih _ h2)

theorem pb_penalize {n : Nat} :
    ∀ (l : List Nat) (st : Store), n ≤ st.mem.length →
      PreservesBelow n st (penalizeRef l st).1 := by
  intro l
  induction l with
  | nil => intro st h; exact pb_refl h
  | cons v vs ih =>
    intro st h
    simp only [penalizeRef, allocS]
    exact pb_comp
      (pb_comp (pb_alloc (f := readS st v) h) (fun h1 => pb_write h1 h))
      (fun h2 => ih _ h2)

theorem pb_phase1 {n : Nat} (c : Bool) (o : Option Nat) (V : List Nat) (st0 : Store)
    (h : n ≤ st0.mem.length) :
    PreservesBelow n st0
      (if c then o.elim (st0, ([] : List Nat)) (fun best => buildMergedRef best V st0)
       else (st0, [])).1 := by
  split
  · cases o with
    | none => exact pb_refl h
    | some b =>
      simp only [Option.elim]
      exact pb_build V st0 h
  · exact pb_refl h

theorem pb_phase2 {n : Nat} (c : Bool) (V L : List Nat) (st1 : Store)
    (h : n ≤ st1.mem.length) :
    PreservesBelow n st1
      (if c then ((fallbackRef V st1).1, L ++ (fallbackRef V st1).2) else (st1, L)).1 := by
  split
  · exact pb_fallback V st1 h
  · exact pb_refl h

/-- Claim C10: the reconciler never mutates its input.  In the
reference-passing embedding, every store cell that existed before the call to
`merge_video_audio_formats_ref` holds exactly the same format dict
afterwards: all writes go to fresh cells allocated by the `dict.copy()`
sites, and the input address list itself is only read. -/
theorem C10_reconciler_preserves_input (st : Store) (ids : List Nat) (i : Nat)
    (hi : i < st.mem.length) :
    readS (merge_video_audio_formats_ref st ids).1 i = readS st i := by
  have hpb : PreservesBelow st.mem.length st (merge_video_audio_formats_ref st ids).1 := by
    unfold merge_video_audio_formats_ref
    dsimp only
    exact pb_comp
      (pb_comp (pb_phase1 _ _ _ _ (Nat.le_refl _)) (fun h1 => pb_phase2 _ _ _ _ h1))
      (fun h2 => pb_penalize _ _ h2)
  exact hpb.2 i hi

/-- Witness for C10 on the scenario-1 store: cell 0 is unchanged by the call. -/
theorem C10_reconciler_preserves_input_witness :
    readS (merge_video_audio_formats_ref { mem := [fmtVideo1080A, fmtAudioAacB] } [0, 1]).1 0 =
      readS { mem := [fmtVideo1080A, fmtAudioAacB] } 0 :=
  C10_reconciler_preserves_input { mem := [fmtVideo1080A, fmtAudioAacB] } [0, 1] 0 (by decide)

end Croxz
